import Mathlib

/-!
Verification of the grocery-list state management in `src/Grocery.js`.

The component keeps an ordered collection `items : GroceryItem[]` and exposes
the mutations `addItem`, `toggleComplete`, `deleteItem`, `updateQuantity` and
`clearCompleted`, plus the derived views `filteredItems`, `groupedItems` and
the aggregate counters.  We embed those functions over `List GroceryItem`,
with JavaScript strings as `String`, `Date` values as their millisecond
counts (`Nat`), and the in-range integer quantities as `Int`.

JavaScriptʼs `String.prototype.trim`, `toLowerCase` and `includes` are
embedded as structurally recursive functions over the character list of a
`String`, so that all definitions evaluate inside the kernel.
-/

namespace Grocery

/-- Embedding of JavaScript `String.prototype.trim`: drop whitespace from both
ends of the string. -/
def jsTrim (s : String) : String :=
  ⟨(((s.data.dropWhile Char.isWhitespace).reverse).dropWhile Char.isWhitespace).reverse⟩

/-- Embedding of JavaScript `String.prototype.toLowerCase` (on the ASCII
letters the program manipulates). -/
def jsToLower (s : String) : String :=
  ⟨s.data.map Char.toLower⟩

/-- Helper for `jsIncludes`: does `needle` start `hay`? -/
def isPrefixL : List Char → List Char → Bool
  | [], _ => true
  | _ :: _, [] => false
  | a :: as, b :: bs => a == b && isPrefixL as bs

/-- Helper for `jsIncludes`: does `needle` occur contiguously in `hay`? -/
def isSubstrL (needle : List Char) : List Char → Bool
  | [] => isPrefixL needle []
  | b :: t => isPrefixL needle (b :: t) || isSubstrL needle t

/-- Embedding of JavaScript `hay.includes(needle)` on strings. -/
def jsIncludes (hay needle : String) : Bool :=
  isSubstrL needle.data hay.data

/-- The specificationʼs notion of substring containment, written directly from
its words: `needle` occurs contiguously inside `hay`. -/
def SpecSubstr (needle hay : List Char) : Prop :=
  ∃ pre post, hay = pre ++ needle ++ post

/-- Longest leading run of decimal digits. -/
def takeDigitsL : List Char → List Char
  | [] => []
  | c :: t => if c.isDigit then c :: takeDigitsL t else []

/-- Value of a list of decimal digit characters, most significant first. -/
def digitsValL (l : List Char) : Nat :=
  l.foldl (fun acc c => acc * 10 + (c.toNat - 48)) 0

/-- Embedding of JavaScript `parseInt` restricted to the base-10 shapes a
`<input type="number">` value can take (optional sign followed by decimal
digits, anything after the digit run ignored); `none` models `NaN`. -/
def jsParseInt (s : String) : Option Int :=
  let t := (jsTrim s).data
  let core : Int × List Char :=
    match t with
    | '-' :: r => (-1, r)
    | '+' :: r => (1, r)
    | r => (1, r)
  let ds := takeDigitsL core.2
  if ds.isEmpty then none else some (core.1 * digitsValL ds)

/-- The quantity-field `onChange` handler of src/Grocery.js line 329:
`setQuantity(parseInt(e.target.value) || 1)`.  `NaN` and `0` are falsy and
replaced by `1`; every other parsed value — negative ones included — is
stored as typed. -/
def quantityInputValue (s : String) : Int :=
  match jsParseInt s with
  | none => 1
  | some n => if n == 0 then 1 else n

/-- The `GroceryItem` interface of src/Grocery.js lines 4–14.  `addedAt` is a
`Date`, embedded as its millisecond count. -/
structure GroceryItem where
  id : String
  name : String
  category : String
  quantity : Int
  unit : String
  completed : Bool
  priority : String
  estimatedPrice : Option Int
  addedAt : Nat
deriving DecidableEq, Repr

/-- The `Category` interface of src/Grocery.js lines 16–21. -/
structure Category where
  id : String
  name : String
  icon : String
  color : String
deriving DecidableEq, Repr

/-- The fixed `categories` constant of src/Grocery.js lines 23–32, in source
order. -/
def categories : List Category :=
  [ ⟨"produce", "Fresh Produce", "🥬", "from-green-400 to-green-600"⟩,
    ⟨"dairy", "Dairy & Eggs", "🥛", "from-blue-400 to-blue-600"⟩,
    ⟨"meat", "Meat & Seafood", "🥩", "from-red-400 to-red-600"⟩,
    ⟨"bakery", "Bakery", "🍞", "from-orange-400 to-orange-600"⟩,
    ⟨"pantry", "Pantry", "🥫", "from-purple-400 to-purple-600"⟩,
    ⟨"frozen", "Frozen", "🧊", "from-cyan-400 to-cyan-600"⟩,
    ⟨"household", "Household", "🧽", "from-gray-400 to-gray-600"⟩,
    ⟨"other", "Other", "📦", "from-indigo-400 to-indigo-600"⟩ ]

/-- The `viewMode` state union type of src/Grocery.js line 49:
`'category' | 'priority' | 'all'`. -/
inductive ViewMode where
  | category
  | priority
  | all
deriving DecidableEq, Repr

/-- One entry of the `groupedItems` record (src/Grocery.js lines 128–136):
the record key, the category metadata (`null` for the single unlabeled
group), and the groupʼs items.  JavaScript objects with non-numeric string
keys enumerate in insertion order, so the record is embedded as a list of
entries in the order the code inserts them. -/
structure Group where
  key : String
  category : Option Category
  items : List GroceryItem
deriving DecidableEq, Repr

/-- `addItem` of src/Grocery.js lines 81–99, restricted to its effect on the
`items` collection.  The form state it reads (`newItem`, `selectedCategory`,
`quantity`, `unit`, `selectedPriority`) and the shared millisecond clock read
by both `Date.now()` and `new Date()` are passed as arguments. -/
def addItem (items : List GroceryItem) (newItem selectedCategory : String) (quantity : Int)
    (unit selectedPriority : String) (now : Nat) : List GroceryItem :=
  if jsTrim newItem = "" then items
  else
    items ++ [{ id := toString now, name := jsTrim newItem, category := selectedCategory,
                quantity := quantity, unit := unit, completed := false,
                priority := selectedPriority, estimatedPrice := none, addedAt := now }]

/-- `toggleComplete` of src/Grocery.js lines 101–105. -/
def toggleComplete (id : String) (items : List GroceryItem) : List GroceryItem :=
  items.map fun item => if item.id == id then { item with completed := !item.completed } else item

/-- `deleteItem` of src/Grocery.js lines 107–109. -/
def deleteItem (id : String) (items : List GroceryItem) : List GroceryItem :=
  items.filter fun item => item.id != id

/-- `updateQuantity` of src/Grocery.js lines 111–116. -/
def updateQuantity (id : String) (newQuantity : Int) (items : List GroceryItem) :
    List GroceryItem :=
  if newQuantity < 1 then items
  else
    items.map fun item =>
      if item.id == id then { item with quantity := newQuantity } else item

/-- `clearCompleted` of src/Grocery.js lines 118–120. -/
def clearCompleted (items : List GroceryItem) : List GroceryItem :=
  items.filter fun item => !item.completed

/-- `filteredItems` of src/Grocery.js lines 122–126. -/
def filteredItems (items : List GroceryItem) (searchTerm filterCategory : String) :
    List GroceryItem :=
  items.filter fun item =>
    let matchesSearch := jsIncludes (jsToLower item.name) (jsToLower searchTerm)
    let matchesCategory := filterCategory == "all" || item.category == filterCategory
    matchesSearch && matchesCategory

/-- `groupedItems` of src/Grocery.js lines 128–136: the `reduce` over
`categories` becomes a left fold appending one record entry per category with
a nonzero number of matching filtered items. -/
def groupedItems (items : List GroceryItem) (searchTerm filterCategory : String)
    (viewMode : ViewMode) : List Group :=
  if viewMode = ViewMode.category then
    categories.foldl
      (fun acc category =>
        let categoryItems := (filteredItems items searchTerm filterCategory).filter
          (fun item => item.category == category.id)
        if categoryItems.length > 0 then acc ++ [⟨category.id, some category, categoryItems⟩]
        else acc)
      []
  else [⟨"all", none, filteredItems items searchTerm filterCategory⟩]

/-- The filtered items carrying a given categoryʼs id — the `categoryItems`
local of src/Grocery.js line 130, as a function of the filtered list. -/
def itemsFor (F : List GroceryItem) (c : Category) : List GroceryItem :=
  F.filter fun item => item.category == c.id

/-- Structured form of the category-view `reduce`: one group per category of
`l` with a nonzero number of matching items, in the order of `l`. -/
def groupsOf (F : List GroceryItem) : List Category → List Group
  | [] => []
  | c :: t =>
      if (itemsFor F c).length > 0 then ⟨c.id, some c, itemsFor F c⟩ :: groupsOf F t
      else groupsOf F t

/-- `completedCount` of src/Grocery.js line 138. -/
def completedCount (items : List GroceryItem) : Nat :=
  (items.filter fun item => item.completed).length

/-- `totalCount` of src/Grocery.js line 139. -/
def totalCount (items : List GroceryItem) : Nat :=
  items.length

/-- `completionPercentage` of src/Grocery.js line 140, with the exact rational
value of the guarded division. -/
def completionPercentage (items : List GroceryItem) : ℚ :=
  if totalCount items > 0 then ((completedCount items : ℚ) / (totalCount items : ℚ)) * 100
  else 0

/-- An item record as it sits in the persisted `modernGroceryList` entry:
identical fields, except that `JSON.stringify` has turned the `addedAt`
`Date` into a string (src/Grocery.js lines 71–73). -/
structure StoredItem where
  id : String
  name : String
  category : String
  quantity : Int
  unit : String
  completed : Bool
  priority : String
  estimatedPrice : Option Int
  addedAt : String
deriving DecidableEq, Repr

/-- The string `JSON.stringify` produces for a `Date`, as a function of its
millisecond count.  The actual format is ISO-8601 with millisecond precision,
which represents every millisecond count exactly and injectively; we embed it
by the equally injective and exactly invertible decimal notation of the
count. -/
def dateToStoredString (ms : Nat) : String :=
  ⟨((Nat.digits 10 ms).map fun d => Char.ofNat (d + 48)).reverse⟩

/-- The millisecond count `new Date(s)` recovers from a stored timestamp
string (src/Grocery.js line 59), inverse of `dateToStoredString`. -/
def storedStringToDate (s : String) : Nat :=
  Nat.ofDigits 10 ((s.data.map fun c => c.toNat - 48).reverse)

/-- One itemʼs serialization inside `JSON.stringify(items)`
(src/Grocery.js line 72). -/
def itemToStored (item : GroceryItem) : StoredItem :=
  { id := item.id, name := item.name, category := item.category,
    quantity := item.quantity, unit := item.unit, completed := item.completed,
    priority := item.priority, estimatedPrice := item.estimatedPrice,
    addedAt := dateToStoredString item.addedAt }

/-- The per-item rehydration of the load effect, src/Grocery.js lines 57–60:
`{ ...item, addedAt: new Date(item.addedAt) }`. -/
def storedToItem (stored : StoredItem) : GroceryItem :=
  { id := stored.id, name := stored.name, category := stored.category,
    quantity := stored.quantity, unit := stored.unit, completed := stored.completed,
    priority := stored.priority, estimatedPrice := stored.estimatedPrice,
    addedAt := storedStringToDate stored.addedAt }

/-- The save effect of src/Grocery.js lines 71–73: the persisted form of the
collection. -/
def saveItems (items : List GroceryItem) : List StoredItem :=
  items.map itemToStored

/-- The load effect of src/Grocery.js lines 54–62: a missing entry yields the
initial empty collection, a present entry is parsed and each itemʼs
`addedAt` rehydrated. -/
def loadItems (saved : Option (List StoredItem)) : List GroceryItem :=
  match saved with
  | none => []
  | some stored => stored.map storedToItem

/-- The user intents that mutate the collection (src/Grocery.js lines
81–120).  An `add` carries the form state it is submitted with, plus the
millisecond clock value at submission. -/
inductive Op where
  | add (newItem selectedCategory : String) (quantity : Int)
        (unit selectedPriority : String) (now : Nat)
  | toggle (id : String)
  | remove (id : String)
  | setQty (id : String) (newQuantity : Int)
  | clearDone
deriving DecidableEq, Repr

/-- Dispatch of one intent to the corresponding mutation. -/
def applyOp (items : List GroceryItem) : Op → List GroceryItem
  | .add n c q u p now => addItem items n c q u p now
  | .toggle id => toggleComplete id items
  | .remove id => deleteItem id items
  | .setQty id q => updateQuantity id q items
  | .clearDone => clearCompleted items

/-- The collection reached from the initial empty state by a sequence of
intents. -/
def runOps (ops : List Op) : List GroceryItem :=
  ops.foldl applyOp []

/-- The ids of the collectionʼs items, in order. -/
def idsOf (items : List GroceryItem) : List String :=
  items.map fun item => item.id

/-- A run of intents in which every `add` that actually creates an item does
so at a clock value whose decimal string is not already an id in the
collection — the situation `id: Date.now().toString()` relies on. -/
def freshRun : List GroceryItem → List Op → Bool
  | _, [] => true
  | st, op :: rest =>
      (match op with
       | .add n _ _ _ _ now => jsTrim n == "" || !((idsOf st).contains (toString now))
       | _ => true) && freshRun (applyOp st op) rest

/-- Concrete item used to instantiate the theorems: a dairy item named
"Milk". -/
def sampleMilk : GroceryItem :=
  ⟨"m1", "Milk", "dairy", 1, "pc", false, "medium", none, 100⟩

/-- Concrete item used to instantiate the theorems: a bakery item named
"Bread". -/
def sampleBread : GroceryItem :=
  ⟨"b1", "Bread", "bakery", 2, "pc", true, "low", none, 200⟩

theorem isPrefixL_iff (n : List Char) : ∀ h : List Char,
    isPrefixL n h = true ↔ ∃ post, h = n ++ post := by
  induction n with
  | nil => intro h; simp [isPrefixL]
  | cons a as ih =>
    intro h
    cases h with
    | nil => simp [isPrefixL]
    | cons b bs =>
      simp only [isPrefixL, Bool.and_eq_true, beq_iff_eq, ih]
      constructor
      · rintro ⟨rfl, post, rfl⟩
        exact ⟨post, rfl⟩
      · rintro ⟨post, hp⟩
        injection hp with h1 h2
        subst h1; subst h2
        exact ⟨rfl, post, rfl⟩

theorem isSubstrL_iff (n : List Char) : ∀ h : List Char,
    isSubstrL n h = true ↔ SpecSubstr n h := by
  intro h
  induction h with
  | nil =>
    simp only [isSubstrL, isPrefixL_iff, SpecSubstr]
    constructor
    · rintro ⟨post, hp⟩
      exact ⟨[], post, by simpa using hp⟩
    · rintro ⟨pre, post, hp⟩
      obtain ⟨h1, h2⟩ := List.append_eq_nil.mp hp.symm
      obtain ⟨h3, h4⟩ := List.append_eq_nil.mp h1
      exact ⟨[], by simp [h4]⟩
  | cons b t ih =>
    simp only [isSubstrL, Bool.or_eq_true, isPrefixL_iff, ih, SpecSubstr]
    constructor
    · rintro (⟨post, hp⟩ | ⟨pre, post, hp⟩)
      · exact ⟨[], post, by simpa using hp⟩
      · exact ⟨b :: pre, post, by simp [hp]⟩
    · rintro ⟨pre, post, hp⟩
      cases pre with
      | nil => exact Or.inl ⟨post, by simpa using hp⟩
      | cons x xs =>
        injection hp with h1 h2
        exact Or.inr ⟨xs, post, h2⟩

/-- C1: an `add` whose name trims to nonempty appends exactly one new item at
the end, carrying `completed = false`, the trimmed name and the given
category, quantity, unit and priority; an `add` whose name trims to empty
leaves the collection unchanged. -/
theorem c1_addItem_spec (items : List GroceryItem) (n c : String) (q : Int)
    (u p : String) (now : Nat) :
    (jsTrim n = "" → addItem items n c q u p now = items) ∧
    (jsTrim n ≠ "" →
      addItem items n c q u p now =
        items ++ [{ id := toString now, name := jsTrim n, category := c, quantity := q,
                    unit := u, completed := false, priority := p, estimatedPrice := none,
                    addedAt := now }] ∧
      (addItem items n c q u p now).length = items.length + 1) := by
  constructor
  · intro h
    simp [addItem, h]
  · intro h
    exact ⟨by simp [addItem, h], by simp [addItem, h]⟩

theorem c1_addItem_spec_witness :
    addItem [] "   " "dairy" 2 "pc" "medium" 42 = [] ∧
    (addItem [] "  Milk " "dairy" 2 "pc" "medium" 42).length =
      ([] : List GroceryItem).length + 1 :=
  ⟨(c1_addItem_spec [] "   " "dairy" 2 "pc" "medium" 42).1 (by decide),
   ((c1_addItem_spec [] "  Milk " "dairy" 2 "pc" "medium" 42).2 (by decide)).2⟩

/-- C2: the claimed invariant `quantity ≥ 1` is broken by the code.  Typing
`-5` into the quantity field runs `setQuantity(parseInt("-5") || 1)`; `-5` is
truthy, so the form state becomes `-5`, and submitting the add form then
stores an item whose quantity is below 1. -/
theorem c2_quantity_invariant_fails :
    quantityInputValue "-5" = -5 ∧
    ∃ item ∈ addItem [] "Milk" "produce" (quantityInputValue "-5") "pc" "medium" 7,
      item.quantity < 1 := by
  decide

/-- C4: the filter stage keeps exactly the items whose lower-cased name
contains the lower-cased search term as a contiguous substring and whose
category matches the filter (every category matching when the filter is
"all"); in particular "mil", "MIL" and "mIl" against Milk and Bread keep only
Milk. -/
theorem c4_filteredItems_spec (items : List GroceryItem) (s fc : String) :
    (∀ i, i ∈ filteredItems items s fc ↔
      i ∈ items ∧ SpecSubstr (jsToLower s).data (jsToLower i.name).data ∧
        (fc = "all" ∨ i.category = fc)) ∧
    filteredItems [sampleMilk, sampleBread] "mil" "all" = [sampleMilk] ∧
    filteredItems [sampleMilk, sampleBread] "MIL" "all" = [sampleMilk] ∧
    filteredItems [sampleMilk, sampleBread] "mIl" "all" = [sampleMilk] := by
  refine ⟨?_, by decide, by decide, by decide⟩
  intro i
  simp [filteredItems, List.mem_filter, Bool.and_eq_true, Bool.or_eq_true, beq_iff_eq,
    jsIncludes, isSubstrL_iff, and_assoc]

/-- C5: `setQuantity` with a value below 1 leaves the collection unchanged
(no clamping, no error); with a value of at least 1 it rewrites exactly the
items bearing the given id to carry that quantity and leaves every other
position untouched. -/
theorem c5_updateQuantity_spec (items : List GroceryItem) (id : String) (n : Int) :
    (n < 1 → updateQuantity id n items = items) ∧
    (1 ≤ n → ∀ j : Nat,
      (updateQuantity id n items)[j]? =
        items[j]?.map fun item =>
          if item.id = id then { item with quantity := n } else item) := by
  constructor
  · intro h
    simp [updateQuantity, h]
  · intro h j
    have hn : ¬ n < 1 := not_lt.mpr h
    simp only [updateQuantity, if_neg hn, List.getElem?_map]
    cases items[j]? with
    | none => rfl
    | some a =>
      by_cases ha : a.id = id <;> simp [Option.map, ha]

theorem c5_updateQuantity_spec_witness :
    updateQuantity "m1" 0 [sampleMilk] = [sampleMilk] ∧
    (updateQuantity "m1" 5 [sampleMilk])[0]? =
      (([sampleMilk] : List GroceryItem)[0]?).map
        (fun item => if item.id = "m1" then { item with quantity := 5 } else item) :=
  ⟨(c5_updateQuantity_spec [sampleMilk] "m1" 0).1 (by decide),
   (c5_updateQuantity_spec [sampleMilk] "m1" 5).2 (by decide) 0⟩

/-- C6: `clearCompleted` keeps exactly the items with `completed = false`, in
their original relative order, and is idempotent. -/
theorem c6_clearCompleted_spec (items : List GroceryItem) :
    (∀ i, i ∈ clearCompleted items ↔ i ∈ items ∧ i.completed = false) ∧
    List.Sublist (clearCompleted items) items ∧
    clearCompleted (clearCompleted items) = clearCompleted items := by
  refine ⟨?_, List.filter_sublist items, ?_⟩
  · intro i
    simp [clearCompleted, List.mem_filter]
  · simp [clearCompleted, List.filter_filter]

/-- C7: the aggregate stage counts the completed items and all items, and the
completion percentage is the guarded ratio, equal to 0 (not undefined) on the
empty collection. -/
theorem c7_aggregates_spec (items : List GroceryItem) :
    completedCount items = items.countP (fun item => item.completed) ∧
    totalCount items = items.length ∧
    completionPercentage ([] : List GroceryItem) = 0 ∧
    (items ≠ [] →
      completionPercentage items =
        (completedCount items : ℚ) / (totalCount items : ℚ) * 100) := by
  refine ⟨(List.countP_eq_length_filter _ _).symm, rfl, rfl, ?_⟩
  intro h
  have hp : 0 < totalCount items := List.length_pos.mpr h
  simp [completionPercentage, hp]

theorem c7_aggregates_spec_witness :
    completionPercentage [sampleMilk] =
      (completedCount [sampleMilk] : ℚ) / (totalCount [sampleMilk] : ℚ) * 100 :=
  (c7_aggregates_spec [sampleMilk]).2.2.2 (by decide)

theorem groupedItems_category_eq (items : List GroceryItem) (s fc : String) :
    groupedItems items s fc ViewMode.category =
      groupsOf (filteredItems items s fc) categories := by
  have key : ∀ (l : List Category) (acc : List Group),
      l.foldl
        (fun acc category =>
          let categoryItems := (filteredItems items s fc).filter
            (fun item => item.category == category.id)
          if categoryItems.length > 0 then acc ++ [⟨category.id, some category, categoryItems⟩]
          else acc)
        acc =
      acc ++ groupsOf (filteredItems items s fc) l := by
    intro l
    induction l with
    | nil => intro acc; simp [groupsOf]
    | cons c t ih =>
      intro acc
      cases hE : (filteredItems items s fc).filter (fun item => item.category == c.id) with
      | nil => simp [List.foldl_cons, groupsOf, itemsFor, hE, ih]
      | cons x xs => simp [List.foldl_cons, groupsOf, itemsFor, hE, ih]
  simpa [groupedItems] using key categories []

theorem groupsOf_map_category (F : List GroceryItem) : ∀ l : List Category,
    (groupsOf F l).map (fun g => g.category) =
      (l.filter fun c => !(itemsFor F c).isEmpty).map some := by
  intro l
  induction l with
  | nil => rfl
  | cons c t ih =>
    cases hE : itemsFor F c with
    | nil => simp [groupsOf, hE, ih]
    | cons x xs => simp [groupsOf, hE, ih]

theorem mem_groupsOf {F : List GroceryItem} {g : Group} : ∀ {l : List Category},
    g ∈ groupsOf F l →
      ∃ c ∈ l, 0 < (itemsFor F c).length ∧ g = ⟨c.id, some c, itemsFor F c⟩ := by
  intro l
  induction l with
  | nil => intro hg; simp [groupsOf] at hg
  | cons c t ih =>
    intro hg
    by_cases h : 0 < (itemsFor F c).length
    · rw [groupsOf, if_pos h] at hg
      rcases List.mem_cons.mp hg with h1 | h1
      · exact ⟨c, List.mem_cons_self .., h, h1⟩
      · obtain ⟨c', hc', hlen, hgc⟩ := ih h1
        exact ⟨c', List.mem_cons_of_mem _ hc', hlen, hgc⟩
    · rw [groupsOf, if_neg h] at hg
      obtain ⟨c', hc', hlen, hgc⟩ := ih hg
      exact ⟨c', List.mem_cons_of_mem _ hc', hlen, hgc⟩

theorem groupsOf_mem_of (F : List GroceryItem) : ∀ (l : List Category) (c : Category),
    c ∈ l → 0 < (itemsFor F c).length →
      (⟨c.id, some c, itemsFor F c⟩ : Group) ∈ groupsOf F l := by
  intro l
  induction l with
  | nil => intro c hc; simp at hc
  | cons a t ih =>
    intro c hc hlen
    rcases List.mem_cons.mp hc with rfl | hc'
    · rw [groupsOf, if_pos hlen]
      exact List.mem_cons_self ..
    · by_cases h : 0 < (itemsFor F a).length
      · rw [groupsOf, if_pos h]
        exact List.mem_cons_of_mem _ (ih c hc' hlen)
      · rw [groupsOf, if_neg h]
        exact ih c hc' hlen

/-- C3: in category view the projector partitions the filtered items by
category in the fixed enumeration order, omitting the categories with no
matching items; each emitted group carries its category metadata and its
items — the filtered items of that category — as a subsequence of the
original collection, so original relative order is preserved; and every
filtered item whose category is in the fixed list lands in a group. -/
theorem c3_groupedItems_category_spec (items : List GroceryItem) (s fc : String) :
    (groupedItems items s fc ViewMode.category).map (fun g => g.category) =
      (categories.filter fun c =>
        !((filteredItems items s fc).filter fun item => item.category == c.id).isEmpty).map
        some ∧
    (∀ g ∈ groupedItems items s fc ViewMode.category, ∃ c,
      g.category = some c ∧
      g.items = (filteredItems items s fc).filter (fun item => item.category == c.id) ∧
      g.items ≠ []) ∧
    (∀ g ∈ groupedItems items s fc ViewMode.category, List.Sublist g.items items) ∧
    (∀ i ∈ filteredItems items s fc, i.category ∈ categories.map (fun c => c.id) →
      ∃ g ∈ groupedItems items s fc ViewMode.category, i ∈ g.items) := by
  have hG := groupedItems_category_eq items s fc
  refine ⟨?_, ?_, ?_, ?_⟩
  · rw [hG]
    simpa [itemsFor] using groupsOf_map_category (filteredItems items s fc) categories
  · intro g hg
    rw [hG] at hg
    obtain ⟨c, _, hlen, rfl⟩ := mem_groupsOf hg
    exact ⟨c, rfl, by simp [itemsFor], List.length_pos.mp hlen⟩
  · intro g hg
    rw [hG] at hg
    obtain ⟨c, _, _, rfl⟩ := mem_groupsOf hg
    exact (List.filter_sublist _).trans (List.filter_sublist _)
  · intro i hi hcat
    obtain ⟨c, hc, hcid⟩ := List.mem_map.mp hcat
    have hmem : i ∈ itemsFor (filteredItems items s fc) c := by
      simp [itemsFor, List.mem_filter, hi, hcid]
    have hlen : 0 < (itemsFor (filteredItems items s fc) c).length :=
      List.length_pos.mpr (List.ne_nil_of_mem hmem)
    exact ⟨⟨c.id, some c, itemsFor (filteredItems items s fc) c⟩,
      by rw [hG]; exact groupsOf_mem_of _ categories c hc hlen, hmem⟩

theorem c3_groupedItems_category_spec_witness :
    (groupedItems [sampleMilk, sampleBread] "" "all" ViewMode.category).map
        (fun g => g.category) =
      (categories.filter fun c =>
        !((filteredItems [sampleMilk, sampleBread] "" "all").filter
            fun item => item.category == c.id).isEmpty).map some ∧
    ∃ g ∈ groupedItems [sampleMilk, sampleBread] "" "all" ViewMode.category,
      sampleMilk ∈ g.items :=
  ⟨(c3_groupedItems_category_spec [sampleMilk, sampleBread] "" "all").1,
   (c3_groupedItems_category_spec [sampleMilk, sampleBread] "" "all").2.2.2 sampleMilk
     (by decide) (by decide)⟩

/-- C10: for every view mode other than `category` — the unlisted `priority`
mode included — the projector emits the single unlabeled group `all` holding
all filtered items in their original order. -/
theorem c10_groupedItems_single (items : List GroceryItem) (s fc : String) (vm : ViewMode)
    (h : vm ≠ ViewMode.category) :
    groupedItems items s fc vm = [⟨"all", none, filteredItems items s fc⟩] := by
  simp [groupedItems, h]

theorem c10_groupedItems_single_witness :
    groupedItems [sampleMilk] "" "all" ViewMode.priority =
      [⟨"all", none, filteredItems [sampleMilk] "" "all"⟩] :=
  c10_groupedItems_single [sampleMilk] "" "all" ViewMode.priority (by decide)

theorem dateString_roundtrip (ms : Nat) :
    storedStringToDate (dateToStoredString ms) = ms := by
  have hmap : ((Nat.digits 10 ms).map fun d => (Char.ofNat (d + 48)).toNat - 48) =
      Nat.digits 10 ms := by
    have hpt : ∀ d ∈ Nat.digits 10 ms, (Char.ofNat (d + 48)).toNat - 48 = d := by
      intro d hd
      have hlt : d < 10 := Nat.digits_lt_base (by norm_num) hd
      interval_cases d <;> decide
    calc ((Nat.digits 10 ms).map fun d => (Char.ofNat (d + 48)).toNat - 48)
        = (Nat.digits 10 ms).map id := List.map_congr_left hpt
      _ = Nat.digits 10 ms := List.map_id _
  show Nat.ofDigits 10 ((((Nat.digits 10 ms).map fun d => Char.ofNat (d + 48)).reverse.map
      fun c => c.toNat - 48).reverse) = ms
  rw [List.map_reverse, List.reverse_reverse, List.map_map]
  have hcomp : ((fun c : Char => c.toNat - 48) ∘ fun d : Nat => Char.ofNat (d + 48)) =
      fun d => (Char.ofNat (d + 48)).toNat - 48 := rfl
  rw [hcomp, hmap, Nat.ofDigits_digits]

/-- C8: serializing the collection to its persisted form — `addedAt` turned
into its stored string — and reloading it through the startup rehydration
yields the same items in the same order, timestamps equal to the
originals. -/
theorem c8_round_trip (items : List GroceryItem) :
    loadItems (some (saveItems items)) = items := by
  simp only [loadItems, saveItems, List.map_map]
  have hpt : ∀ item ∈ items, (storedToItem ∘ itemToStored) item = item := by
    intro item _
    cases item
    simp [storedToItem, itemToStored, dateString_roundtrip]
  calc items.map (storedToItem ∘ itemToStored)
      = items.map id := List.map_congr_left hpt
    _ = items := List.map_id _

theorem idsOf_map_of_preserve (f : GroceryItem → GroceryItem)
    (hf : ∀ i, (f i).id = i.id) (l : List GroceryItem) :
    idsOf (l.map f) = idsOf l := by
  simp only [idsOf, List.map_map]
  apply List.map_congr_left
  intro i _
  exact hf i

theorem nodup_idsOf_applyOp (st : List GroceryItem) (op : Op)
    (h : (idsOf st).Nodup)
    (hfresh : (match op with
       | .add n _ _ _ _ now => jsTrim n == "" || !((idsOf st).contains (toString now))
       | _ => true) = true) :
    (idsOf (applyOp st op)).Nodup := by
  cases op with
  | add n c q u p now =>
    by_cases hn : jsTrim n = ""
    · simpa [applyOp, addItem, hn] using h
    · have hfree : toString now ∉ idsOf st := by
        simpa [hn] using hfresh
      have h' : (st.map fun item => item.id).Nodup := by simpa [idsOf] using h
      have hfree' : toString now ∉ st.map fun item => item.id := by
        simpa [idsOf] using hfree
      simp [applyOp, addItem, hn, idsOf, List.nodup_append, h', hfree']
  | toggle id =>
    have heq : idsOf (toggleComplete id st) = idsOf st :=
      idsOf_map_of_preserve _ (fun i => by split <;> rfl) st
    simp only [applyOp]
    rw [heq]
    exact h
  | remove id =>
    simp only [applyOp]
    exact h.sublist ((List.filter_sublist st).map _)
  | setQty id q =>
    by_cases hq : q < 1
    · simpa [applyOp, updateQuantity, hq] using h
    · have heq : idsOf (updateQuantity id q st) = idsOf st := by
        simp only [updateQuantity, if_neg hq]
        exact idsOf_map_of_preserve _ (fun i => by split <;> rfl) st
      simp only [applyOp]
      rw [heq]
      exact h
  | clearDone =>
    simp only [applyOp]
    exact h.sublist ((List.filter_sublist st).map _)

theorem freshRun_foldl_nodup : ∀ (ops : List Op) (st : List GroceryItem),
    (idsOf st).Nodup → freshRun st ops = true →
      (idsOf (ops.foldl applyOp st)).Nodup := by
  intro ops
  induction ops with
  | nil => intro st h _; simpa using h
  | cons op rest ih =>
    intro st h hfresh
    simp only [freshRun, Bool.and_eq_true] at hfresh
    exact ih (applyOp st op) (nodup_idsOf_applyOp st op h hfresh.1) hfresh.2

/-- C9, counterexample to the claim as stated: `id` is
`Date.now().toString()`, so two adds submitted within the same millisecond
(clock value 5 for both) create two items with the equal id "5" — the
reachable collection has a duplicate id. -/
theorem c9_counterexample :
    ¬ (idsOf (runOps
        [Op.add "a" "produce" 1 "pc" "medium" 5,
         Op.add "b" "produce" 1 "pc" "medium" 5])).Nodup := by
  decide

/-- C9, amended: in every run in which each item-creating `add` happens at a
clock value whose decimal string is not already an id of the collection — in
particular whenever the millisecond clock strictly increases between adds —
the ids of the reached collection are pairwise distinct. -/
theorem c9_ids_nodup_of_fresh (ops : List Op) (h : freshRun [] ops = true) :
    (idsOf (runOps ops)).Nodup := by
  have hnil : (idsOf ([] : List GroceryItem)).Nodup := by simp [idsOf]
  exact freshRun_foldl_nodup ops [] hnil h

theorem c9_ids_nodup_of_fresh_witness :
    freshRun []
        [Op.add "a" "produce" 1 "pc" "medium" 5,
         Op.add "b" "produce" 1 "pc" "medium" 6] = true ∧
    (idsOf (runOps
        [Op.add "a" "produce" 1 "pc" "medium" 5,
         Op.add "b" "produce" 1 "pc" "medium" 6])).Nodup :=
  ⟨by decide,
   c9_ids_nodup_of_fresh
     [Op.add "a" "produce" 1 "pc" "medium" 5,
      Op.add "b" "produce" 1 "pc" "medium" 6] (by decide)⟩

end Grocery
